import Mathlib

/-!
Verification of the batch recording utilities (`src/lib/batch.js`).

The JavaScript source is shallowly embedded: JavaScript strings become Lean
`String`s (operated on through their character lists, which matches the
source's ASCII-only transformations), JavaScript numbers used as counters
become `Nat` (or `Int` where negative values are observable), fallible
operations return `Except`, and the external collaborators (the WHATWG URL
parser behind `new URL`, node's `path.join`, the filesystem, the injected
recording capability) are passed in as explicit parameters.

The concurrent worker pool of `runParallel` is embedded as a small-step
state machine: JavaScript's single-threaded event loop means a worker runs
atomically between `await` points, so each transition of the machine is one
such atomic block, and an execution is an arbitrary interleaving of worker
transitions (a schedule).  The model allows strictly more interleavings
than the event loop does, so safety properties proved over all schedules
hold for the real program.
-/

namespace Batch

/-! ## Decimal rendering of numbers (JavaScript `String(n)`) -/

/-- The character for a single decimal digit. -/
def digitCh (d : Nat) : Char := Char.ofNat (48 + d)

/-- Fuel-driven big-endian digit list of `n`; `[]` for `n = 0`.
The fuel only bounds the recursion depth: any `fuel ≥ n` gives the digits. -/
def toDecAux : Nat → Nat → List Char
  | 0, _ => []
  | fuel + 1, n => if n = 0 then [] else toDecAux fuel (n / 10) ++ [digitCh (n % 10)]

/-- JavaScript `String(n)` for a non-negative number: decimal rendering. -/
def jsNumToString (n : Nat) : String :=
  if n = 0 then "0" else String.mk (toDecAux (n + 1) n)

/-- Reads a decimal digit string (possibly with leading zeros) back to a number. -/
def decodeDec (cs : List Char) : Nat :=
  cs.foldl (fun acc c => 10 * acc + (c.toNat - 48)) 0

/-! ## JavaScript string primitives used by `batch.js` -/

/-- JavaScript `s.padStart(len, c)`: left-pad with `c` up to length `len`;
strings already at least that long are returned unchanged. -/
def padStartStr (s : String) (len : Nat) (c : Char) : String :=
  String.mk (List.replicate (len - s.length) c ++ s.data)

/-- Membership in the JavaScript regex character class `[a-zA-Z0-9]`. -/
def isAlnumCh (c : Char) : Bool :=
  (97 ≤ c.toNat && c.toNat ≤ 122) || (65 ≤ c.toNat && c.toNat ≤ 90) ||
    (48 ≤ c.toNat && c.toNat ≤ 57)

/-- JavaScript `s.replace(/[^a-zA-Z0-9]/g, '-')`. -/
def slugifyAll (cs : List Char) : List Char :=
  cs.map fun c => if isAlnumCh c then c else '-'

/-- JavaScript `s.replace(/[^a-zA-Z0-9-]/g, '-')`. -/
def slugifyKeepDash (cs : List Char) : List Char :=
  cs.map fun c => if isAlnumCh c || c == '-' then c else '-'

/-- JavaScript `s.replace(/\./g, '-')`. -/
def dotsToDashes (cs : List Char) : List Char :=
  cs.map fun c => if c == '.' then '-' else c

/-- JavaScript `s.replace(ANCHORED, '')` for a fixed leading literal, e.g.
`replace(/^www\./, '')` or `replace(/^\//, '')`: drop the literal when it
leads the string, otherwise leave the string unchanged. -/
def stripLeadChars (lit cs : List Char) : List Char :=
  if lit.isPrefixOf cs then cs.drop lit.length else cs

/-- JavaScript `s.replace(/\/$/, '')` generalised to one trailing character. -/
def stripTrailChar (c : Char) (cs : List Char) : List Char :=
  if cs.getLast? = some c then cs.dropLast else cs

/-- JavaScript `Array.prototype.join(sep)`. -/
def joinWith (sep : String) : List String → String
  | [] => ""
  | [s] => s
  | s :: rest => s ++ sep ++ joinWith sep rest

/-- Model of node's `path.join(dir, name)` for the shapes this program uses:
the second argument is always a plain file name (no separators, single
non-`.`/`..` segment), so joining is concatenation with a `/` separator;
node's normalization of `.`/`..` segments inside `dir` is not modelled. -/
def pathJoin (dir name : String) : String :=
  if dir = "" then name
  else if dir.data.getLast? = some '/' then dir ++ name
  else dir ++ "/" ++ name

/-! ## `generateOutputPath` (`batch.js` lines 45-71) -/

/-- Result of the WHATWG URL parser (`new URL(url)`), restricted to the two
components `generateOutputPath` reads.  The parser itself is an external
platform API and is passed in as a `String → Option URLRec` parameter
(`none` models the `TypeError` caught by the `try`/`catch`). -/
structure URLRec where
  hostname : String
  pathname : String
  deriving DecidableEq, Repr

/-- `parsed.hostname.replace(/^www\./, '')` (line 56). -/
def hostnameOf (parsed : URLRec) : String :=
  String.mk (stripLeadChars "www.".data parsed.hostname.data)

/-- The sanitized path slug of lines 57-61:
`parsed.pathname.replace(/^\//,'').replace(/\/$/,'').replace(/[^a-zA-Z0-9-]/g,'-').substring(0,60)`. -/
def pathSlugOf (parsed : URLRec) : String :=
  String.mk
    ((slugifyKeepDash (stripTrailChar '/' (stripLeadChars "/".data parsed.pathname.data))).take 60)

/-- `hostname.replace(/\./g, '-')` (line 64). -/
def hostPartOf (parsed : URLRec) : String :=
  String.mk (dotsToDashes (hostnameOf parsed).data)

/-- The file name `generateOutputPath` builds (the argument it passes to
`path.join`), faithful to `batch.js` lines 46-70. -/
def outFileName (parseURL : String → Option URLRec) (url : String) (index : Nat) : String :=
  match parseURL url with
  | none =>
    -- Fallback for invalid URLs
    let slug := String.mk ((slugifyAll url.data).take 50)
    let idx3 := padStartStr (jsNumToString (index + 1)) 3 '0'
    idx3 ++ "-" ++ slug ++ ".mp4"
  | some parsed =>
    let idx3 := padStartStr (jsNumToString (index + 1)) 3 '0'
    let nameParts := [idx3, hostPartOf parsed]
      ++ (if pathSlugOf parsed = "" then [] else [pathSlugOf parsed])
    joinWith "-" nameParts ++ ".mp4"

/-- `generateOutputPath(url, index, outputDir)` from `batch.js`. -/
def generateOutputPath (parseURL : String → Option URLRec) (url : String) (index : Nat)
    (outputDir : String) : String :=
  pathJoin outputDir (outFileName parseURL url index)

/-! ## `readUrlFile` (`batch.js` lines 17-36) -/

/-- Character-list version of JavaScript `s.trim()` (the file's lines are
ASCII, where the two whitespace notions agree). -/
def trimChars (cs : List Char) : List Char :=
  ((cs.dropWhile Char.isWhitespace).reverse.dropWhile Char.isWhitespace).reverse

/-- JavaScript `content.split('\n')` on the character list. -/
def splitNL : List Char → List (List Char)
  | [] => [[]]
  | c :: rest =>
    let r := splitNL rest
    if c = '\n' then [] :: r
    else
      match r with
      | [] => [[c]]
      | h :: t => (c :: h) :: t

/-- JavaScript `line.startsWith('#')`. -/
def hashLeads (line : String) : Bool :=
  match line.data with
  | c :: _ => c == '#'
  | [] => false

/-- The pure content-to-URL-list part of `readUrlFile`:
`content.split('\n').map(trim).filter(l => l.length > 0 && !l.startsWith('#'))`. -/
def parseUrlLines (content : String) : List String :=
  (((splitNL content.data).map fun l => String.mk (trimChars l)).filter
    fun line => decide (0 < line.length) && !(hashLeads line))

/-- `readUrlFile(filePath)`, with the filesystem supplied as explicit inputs:
whether the path exists (`existsSync`) and the file's contents (`readFile`).
Thrown `Error`s become `Except.error` of the message. -/
def readUrlFile (filePath : String) (fileExists : Bool) (content : String) :
    Except String (List String) :=
  if !fileExists then
    Except.error ("URL file not found: " ++ filePath)
  else
    let urls := parseUrlLines content
    if urls.length = 0 then Except.error ("No URLs found in file: " ++ filePath)
    else Except.ok urls

/-! ## Job records shared by both execution modes -/

/-- The minimum JobResult shape the core reads from the injected recording
capability: `{ success: bool }` plus an `error` description on failure. -/
structure JobOutcome where
  success : Bool
  error : Option String
  deriving DecidableEq, Repr

/-- The object literal passed to `recordFn` (`batch.js` lines 107-114 and
158-167).  `displayStartNumber`/`sinkName` are absent (`none`) in sequential
mode; `shared` stands for the spread `...sharedArgs`. -/
structure JobContext (σ : Type) where
  url : String
  outputPath : String
  jobLabel : String
  jobIndex : Nat
  parallelMode : Bool
  displayStartNumber : Option Nat
  sinkName : Option String
  shared : σ
  deriving DecidableEq, Repr

/-- One element of the result array: `{ url, outputPath, ...result }`. -/
structure BatchEntry where
  url : String
  outputPath : String
  success : Bool
  error : Option String
  deriving DecidableEq, Repr

/-! ## `runSequential` (`batch.js` lines 92-126) -/

/-- The context built by the sequential loop for job `i` of `total`. -/
def mkSeqCtx (shared : σ) (url outputPath : String) (i total : Nat) : JobContext σ :=
  { url := url, outputPath := outputPath,
    jobLabel := "[" ++ jsNumToString (i + 1) ++ "/" ++ jsNumToString total ++ "]",
    jobIndex := i, parallelMode := false,
    displayStartNumber := none, sinkName := none, shared := shared }

/-- The `for` loop of `runSequential`, with the current index made explicit. -/
def runSeqAux (parseURL : String → Option URLRec) (outputDir : String)
    (recordFn : JobContext σ → JobOutcome) (shared : σ) (total : Nat) :
    List String → Nat → List BatchEntry
  | [], _ => []
  | url :: rest, i =>
    let outputPath := generateOutputPath parseURL url i outputDir
    let result := recordFn (mkSeqCtx shared url outputPath i total)
    { url := url, outputPath := outputPath,
      success := result.success, error := result.error }
      :: runSeqAux parseURL outputDir recordFn shared total rest (i + 1)

/-- `runSequential(urls, outputDir, recordFn, sharedArgs)` with a recording
capability that returns an outcome for every job. -/
def runSequential (parseURL : String → Option URLRec) (urls : List String) (outputDir : String)
    (recordFn : JobContext σ → JobOutcome) (sharedArgs : σ) : List BatchEntry :=
  runSeqAux parseURL outputDir recordFn sharedArgs urls.length urls 0

/-- The `for` loop of `runSequential` when the recording capability may also
reject (raise).  `batch.js` has no `try`/`catch` around `await recordFn(...)`
(lines 107-114), so a rejection propagates out of the loop, which is exactly
what the `Except` bind does here. -/
def runSeqAuxE (parseURL : String → Option URLRec) (outputDir : String)
    (recordFn : JobContext σ → Except ε JobOutcome) (shared : σ) (total : Nat) :
    List String → Nat → Except ε (List BatchEntry)
  | [], _ => Except.ok []
  | url :: rest, i =>
    let outputPath := generateOutputPath parseURL url i outputDir
    match recordFn (mkSeqCtx shared url outputPath i total) with
    | Except.error e => Except.error e
    | Except.ok result =>
      match runSeqAuxE parseURL outputDir recordFn shared total rest (i + 1) with
      | Except.error e => Except.error e
      | Except.ok restResults =>
        Except.ok ({ url := url, outputPath := outputPath,
                     success := result.success, error := result.error } :: restResults)

/-- `runSequential` with a recording capability that may reject. -/
def runSequentialE (parseURL : String → Option URLRec) (urls : List String) (outputDir : String)
    (recordFn : JobContext σ → Except ε JobOutcome) (sharedArgs : σ) :
    Except ε (List BatchEntry) :=
  runSeqAuxE parseURL outputDir recordFn sharedArgs urls.length urls 0

/-! ## `runParallel` (`batch.js` lines 137-187) -/

/-- One element of the shared job queue: `{ url, index }`. -/
structure Job where
  url : String
  index : Nat
  deriving DecidableEq, Repr

/-- `urls.map((url, i) => ({ url, index: i }))`. -/
def buildQueue (urls : List String) : List Job :=
  urls.enum.map fun p => { url := p.2, index := p.1 }

/-- Where a worker's control is between two suspension points:
at the top of its `while` loop (`idle`), suspended in `await recordFn` for
the claimed queue position `jobIdx` (`running jobIdx`), or returned (`done`). -/
inductive WStatus where
  | idle : WStatus
  | running : Nat → WStatus
  | done : WStatus
  deriving DecidableEq, Repr

/-- The non-worker inputs of `runParallel`. -/
structure PoolEnv (σ : Type) where
  parseURL : String → Option URLRec
  urls : List String
  outputDir : String
  shared : σ

/-- The mutable state shared by the workers: the claim cursor `nextIndex`,
the pre-sized `results` slot array, and the workers' control points.
`counts` instruments each slot with the number of times it has been written
(the real array has no such field; it exists to state exactly-once claims),
and `calls` records each invocation of `recordFn` together with the id of
the invoking worker. -/
structure PoolState (σ : Type) where
  next : Nat
  slots : List (Option BatchEntry)
  counts : List Nat
  workers : List WStatus
  calls : List (Nat × JobContext σ)

/-- The context built by worker `workerId` for `job` (`batch.js` 158-167). -/
def mkParCtx (env : PoolEnv σ) (workerId : Nat) (job : Job) (outputPath : String) :
    JobContext σ :=
  { url := job.url, outputPath := outputPath,
    jobLabel := "[W" ++ jsNumToString workerId ++ "|" ++ jsNumToString (job.index + 1)
      ++ "/" ++ jsNumToString env.urls.length ++ "]",
    jobIndex := job.index, parallelMode := true,
    displayStartNumber := some (99 + workerId * 10),
    sinkName := some ("recording_sink_" ++ jsNumToString workerId),
    shared := env.shared }

/-- `Math.min(concurrency, urls.length)` rendered as a worker count; a
non-positive concurrency yields zero workers, as in the `for` launch loop. -/
def numWorkers (concurrency : Int) (total : Nat) : Nat :=
  (min concurrency (total : Int)).toNat

/-- The state in which `runParallel` launches its workers: cursor at 0, the
`new Array(urls.length)` of unwritten slots, and
`min(concurrency, urls.length)` workers (ids are list positions, 0-based),
each at the top of its loop. -/
def initPool (env : PoolEnv σ) (concurrency : Int) : PoolState σ :=
  { next := 0,
    slots := List.replicate env.urls.length none,
    counts := List.replicate env.urls.length 0,
    workers := List.replicate (numWorkers concurrency env.urls.length) WStatus.idle,
    calls := [] }

/-- One atomic block of worker `w` (the code between two `await` points):

* `idle` with jobs remaining: the `while` guard passes, `nextIndex++` claims a
  position, the context is built and `recordFn` invoked — the worker is now
  suspended (`running`).  Guard check, claim, and call are a single step
  because no `await` separates them in the source.
* `idle` with the queue exhausted: the guard fails and the worker returns.
* `running j`: the awaited `recordFn` settles with outcome `o` (chosen by the
  schedule, modelling an arbitrary recording capability), and the worker
  writes `results[index]` and returns to the top of its loop.

A `w` that names no worker, or a `done` worker, has no step (the state is
returned unchanged, letting schedules be arbitrary lists). -/
def poolStep (env : PoolEnv σ) (s : PoolState σ) (w : Nat) (o : JobOutcome) : PoolState σ :=
  match s.workers[w]? with
  | some WStatus.idle =>
    if s.next < (buildQueue env.urls).length then
      match (buildQueue env.urls)[s.next]? with
      | some job =>
        let outputPath := generateOutputPath env.parseURL job.url job.index env.outputDir
        { s with next := s.next + 1,
                 workers := s.workers.set w (WStatus.running s.next),
                 calls := s.calls ++ [(w, mkParCtx env w job outputPath)] }
      | none => s
    else
      { s with workers := s.workers.set w WStatus.done }
  | some (WStatus.running j) =>
    match (buildQueue env.urls)[j]? with
    | some job =>
      let outputPath := generateOutputPath env.parseURL job.url job.index env.outputDir
      { s with slots := s.slots.set job.index
                 (some { url := job.url, outputPath := outputPath,
                         success := o.success, error := o.error }),
               counts := s.counts.set job.index (s.counts.getD job.index 0 + 1),
               workers := s.workers.set w WStatus.idle }
    | none => s
  | some WStatus.done => s
  | none => s

/-- Run the pool under a schedule: each item picks the worker that moves next
and, for a completion step, the outcome its `recordFn` call settled with. -/
def runPool (env : PoolEnv σ) (s : PoolState σ) (sched : List (Nat × JobOutcome)) :
    PoolState σ :=
  sched.foldl (fun st p => poolStep env st p.1 p.2) s

/-- `await Promise.all(workers)` has resolved exactly when every worker has
returned from its loop. -/
def allDone (s : PoolState σ) : Prop :=
  ∀ st ∈ s.workers, st = WStatus.done

instance (s : PoolState σ) : Decidable (allDone s) :=
  inferInstanceAs (Decidable (∀ st ∈ s.workers, st = WStatus.done))

/-! ## `printBatchSummary` (`batch.js` lines 193-217) -/

/-- `'='.repeat(70)`. -/
def sep70 : String := String.mk (List.replicate 70 '=')

/-- `'-'.repeat(70)`. -/
def dash70 : String := String.mk (List.replicate 70 '-')

/-- Per-result log line `  [${status}] ${result.url}`. -/
def statusLine (r : BatchEntry) : String :=
  "  [" ++ (if r.success then "OK" else "FAIL") ++ "] " ++ r.url

/-- Per-result log line `         ${detail}` (a missing `error` field prints
as JavaScript `undefined`). -/
def detailLine (r : BatchEntry) : String :=
  "         " ++ (if r.success then r.outputPath else r.error.getD "undefined")

/-- One iteration of the `for...of` loop of `printBatchSummary`: appends the
two log lines for `r` and bumps the matching counter. -/
def summaryStep (acc : List String × Nat × Nat) (r : BatchEntry) : List String × Nat × Nat :=
  (acc.1 ++ [statusLine r, detailLine r],
   if r.success then acc.2.1 + 1 else acc.2.1,
   if r.success then acc.2.2 else acc.2.2 + 1)

/-- The `for...of` loop of `printBatchSummary`: accumulates the per-result
log lines and the success/failure counters in iteration order. -/
def summaryLoop (results : List BatchEntry) : List String × Nat × Nat :=
  results.foldl summaryStep ([], 0, 0)

/-- `printBatchSummary(results)`, observed as the list of emitted log lines. -/
def printBatchSummary (results : List BatchEntry) : List String :=
  let loop := summaryLoop results
  [sep70, "Batch Recording Summary", sep70] ++ loop.1 ++
    [dash70,
     "Total: " ++ jsNumToString results.length ++ " | Success: " ++ jsNumToString loop.2.1
       ++ " | Failed: " ++ jsNumToString loop.2.2]

/-! ## Concrete instances used to exercise the definitions -/

/-- A URL parser that rejects every input (everything falls back to slugs). -/
def parseNone : String → Option URLRec := fun _ => none

/-- A successful recording outcome. -/
def okOutcome : JobOutcome := { success := true, error := none }

/-- A recording capability that always succeeds. -/
def recordOk : JobContext Unit → JobOutcome := fun _ => okOutcome

/-- A two-URL batch environment. -/
def envW : PoolEnv Unit :=
  { parseURL := parseNone, urls := ["https://a.example", "https://b.example"],
    outputDir := "/out", shared := () }

/-- A schedule that drives two workers over `envW` to completion. -/
def schedW : List (Nat × JobOutcome) :=
  [(0, okOutcome), (1, okOutcome), (0, okOutcome), (1, okOutcome), (0, okOutcome),
    (1, okOutcome)]

/-- Placeholder call used as a `getD` default. -/
def dummyCall : Nat × JobContext Unit := (0, mkSeqCtx () "" "" 0 0)

/-- The WHATWG parse of `https://www.Example.com/Foo/Bar/`: the scheme and
host are normalized to lower case by the parser, the path keeps its case. -/
def parseW : String → Option URLRec := fun s =>
  if s = "https://www.Example.com/Foo/Bar/" then
    some { hostname := "www.example.com", pathname := "/Foo/Bar/" }
  else none

/-- A two-entry result list, one success and one failure. -/
def resultsW : List BatchEntry :=
  [{ url := "u1", outputPath := "/out/001-u1.mp4", success := true, error := none },
   { url := "u2", outputPath := "/out/002-u2.mp4", success := false,
     error := some "timeout" }]

/-! ## Claimed queue positions -/

/-- The queue positions currently claimed by suspended workers. -/
def claimsOf : List WStatus → List Nat
  | [] => []
  | WStatus.idle :: ws => claimsOf ws
  | WStatus.running j :: ws => j :: claimsOf ws
  | WStatus.done :: ws => claimsOf ws

/-- How many claims of position `j` a single worker status contributes. -/
def claimCnt (st : WStatus) (j : Nat) : Nat :=
  match st with
  | WStatus.running k => if k = j then 1 else 0
  | _ => 0


/-! ## The pool invariant -/

/-- The inductive invariant of the worker pool.  `W` is the number of workers
launched.  Each queue position below the cursor has either been written
(exactly once) or is claimed by exactly one suspended worker; positions at or
above the cursor are untouched and unclaimed; a worker only returns once the
cursor has exhausted the queue; written slots carry their job's url and
derived path; every recorded `recordFn` call carries the worker-id-derived
resource hints of its invoking worker. -/
structure PoolInv (env : PoolEnv σ) (W : Nat) (s : PoolState σ) : Prop where
  slots_len : s.slots.length = env.urls.length
  counts_len : s.counts.length = env.urls.length
  workers_len : s.workers.length = W
  next_le : s.next ≤ env.urls.length
  counts_eq : ∀ j, s.counts.getD j 0 = if (s.slots.getD j none).isSome then 1 else 0
  claimed : ∀ j, j < s.next →
    ((s.slots.getD j none).isSome ∧ List.count j (claimsOf s.workers) = 0)
      ∨ (s.slots.getD j none = none ∧ List.count j (claimsOf s.workers) = 1)
  unclaimed : ∀ j, s.next ≤ j → List.count j (claimsOf s.workers) = 0
  unwritten : ∀ j, s.next ≤ j → s.slots.getD j none = none
  done_next : WStatus.done ∈ s.workers → s.next = env.urls.length
  entry_url : ∀ j e, s.slots.getD j none = some e →
    e.url = env.urls.getD j ""
      ∧ e.outputPath = generateOutputPath env.parseURL (env.urls.getD j "") j env.outputDir
  calls_ok : ∀ p ∈ s.calls,
    p.2.displayStartNumber = some (99 + p.1 * 10)
      ∧ p.2.sinkName = some ("recording_sink_" ++ jsNumToString p.1)
      ∧ p.1 < W

/-! ## Lemmas about the decimal rendering -/

theorem digitCh_toNat : ∀ d, d < 10 → (digitCh d).toNat = 48 + d := by decide

theorem toDecAux_foldl (fuel : Nat) : ∀ n acc, n ≤ fuel →
    List.foldl (fun a c => 10 * a + (c.toNat - 48)) acc (toDecAux fuel n)
      = acc * 10 ^ (toDecAux fuel n).length + n := by
  induction fuel with
  | zero =>
    intro n acc hn
    have hn0 : n = 0 := Nat.le_zero.mp hn
    subst hn0
    simp [toDecAux]
  | succ fuel ih =>
    intro n acc hn
    by_cases h0 : n = 0
    · subst h0; simp [toDecAux]
    · have hrec : toDecAux (fuel + 1) n = toDecAux fuel (n / 10) ++ [digitCh (n % 10)] := by
        simp [toDecAux, h0]
      have hdiv : n / 10 ≤ fuel := by
        have : n / 10 < n := Nat.div_lt_self (Nat.pos_of_ne_zero h0) (by omega)
        omega
      have hmod : (digitCh (n % 10)).toNat = 48 + n % 10 :=
        digitCh_toNat (n % 10) (Nat.mod_lt n (by omega))
      rw [hrec, List.foldl_append, ih (n / 10) acc hdiv]
      simp only [List.foldl_cons, List.foldl_nil, List.length_append, List.length_cons,
        List.length_nil, hmod]
      have hpow : 10 ^ ((toDecAux fuel (n / 10)).length + (0 + 1))
          = 10 ^ (toDecAux fuel (n / 10)).length * 10 := by
        rw [Nat.zero_add, Nat.pow_succ]
      rw [hpow]
      have := Nat.div_add_mod n 10
      ring_nf
      omega

theorem decodeDec_jsNumToString (n : Nat) : decodeDec (jsNumToString n).data = n := by
  by_cases h0 : n = 0
  · subst h0; decide
  · have : jsNumToString n = String.mk (toDecAux (n + 1) n) := by
      simp [jsNumToString, h0]
    rw [this]
    have := toDecAux_foldl (n + 1) n 0 (by omega)
    simpa [decodeDec] using this

theorem foldl_dec_zeros (k : Nat) :
    List.foldl (fun a c => 10 * a + (c.toNat - 48)) 0 (List.replicate k '0') = 0 := by
  induction k with
  | zero => rfl
  | succ k ih => simpa [List.replicate_succ] using ih

/-- The 3-digit-padded decimal prefix decodes back to the number it renders:
leading `'0'` padding contributes nothing. -/
theorem decodeDec_padStart (n : Nat) :
    decodeDec (padStartStr (jsNumToString n) 3 '0').data = n := by
  have hdata : (padStartStr (jsNumToString n) 3 '0').data
      = List.replicate (3 - (jsNumToString n).length) '0' ++ (jsNumToString n).data := rfl
  rw [decodeDec, hdata, List.foldl_append, foldl_dec_zeros]
  exact decodeDec_jsNumToString n

theorem padStart_jsNum_injective {a b : Nat}
    (h : padStartStr (jsNumToString a) 3 '0' = padStartStr (jsNumToString b) 3 '0') :
    a = b := by
  have := congrArg (fun s : String => decodeDec s.data) h
  simpa [decodeDec_padStart] using this

theorem toDecAux_length_le (fuel : Nat) : ∀ n k, n ≤ fuel → n < 10 ^ k →
    (toDecAux fuel n).length ≤ k := by
  induction fuel with
  | zero => intro n k hn _; have : n = 0 := Nat.le_zero.mp hn; subst this; simp [toDecAux]
  | succ fuel ih =>
    intro n k hn hk
    by_cases h0 : n = 0
    · subst h0; simp [toDecAux]
    · have hrec : toDecAux (fuel + 1) n = toDecAux fuel (n / 10) ++ [digitCh (n % 10)] := by
        simp [toDecAux, h0]
      have hkpos : 0 < k := by
        rcases Nat.eq_zero_or_pos k with hk0 | hk0
        · subst hk0; simp at hk; omega
        · exact hk0
      have hdivfuel : n / 10 ≤ fuel := by
        have : n / 10 < n := Nat.div_lt_self (Nat.pos_of_ne_zero h0) (by omega)
        omega
      have hdivlt : n / 10 < 10 ^ (k - 1) := by
        have h10 : (0:Nat) < 10 := by omega
        rw [Nat.div_lt_iff_lt_mul h10]
        have : 10 ^ (k - 1) * 10 = 10 ^ k := by
          rw [← Nat.pow_succ]
          congr 1
          omega
        omega
      have := ih (n / 10) (k - 1) hdivfuel hdivlt
      rw [hrec]
      simp only [List.length_append, List.length_cons, List.length_nil]
      omega

theorem toDecAux_length_ge (fuel : Nat) : ∀ n k, n ≤ fuel → 10 ^ k ≤ n →
    k + 1 ≤ (toDecAux fuel n).length := by
  induction fuel with
  | zero =>
    intro n k hn hk
    have : n = 0 := Nat.le_zero.mp hn
    subst this
    have : 0 < 10 ^ k := Nat.pos_pow_of_pos k (by omega)
    omega
  | succ fuel ih =>
    intro n k hn hk
    have hpos : 0 < 10 ^ k := Nat.pos_pow_of_pos k (by omega)
    have h0 : n ≠ 0 := by omega
    have hrec : toDecAux (fuel + 1) n = toDecAux fuel (n / 10) ++ [digitCh (n % 10)] := by
      simp [toDecAux, h0]
    rcases Nat.eq_zero_or_pos k with hk0 | hkpos
    · subst hk0
      rw [hrec]
      simp only [List.length_append, List.length_cons, List.length_nil]
      omega
    · have hdivfuel : n / 10 ≤ fuel := by
        have : n / 10 < n := Nat.div_lt_self (Nat.pos_of_ne_zero h0) (by omega)
        omega
      have hdivge : 10 ^ (k - 1) ≤ n / 10 := by
        have h10 : (0:Nat) < 10 := by omega
        rw [Nat.le_div_iff_mul_le h10]
        have : 10 ^ (k - 1) * 10 = 10 ^ k := by
          rw [← Nat.pow_succ]
          congr 1
          omega
        omega
      have := ih (n / 10) (k - 1) hdivfuel hdivge
      rw [hrec]
      simp only [List.length_append, List.length_cons, List.length_nil]
      omega

theorem padStartStr_length (s : String) (k : Nat) (c : Char) :
    (padStartStr s k c).length = (k - s.length) + s.length := by
  show (List.replicate (k - s.length) c ++ s.data).length = _
  rw [List.length_append, List.length_replicate]
  rfl

theorem padStart_jsNum_length_eq (n : Nat) (h : n < 1000) :
    (padStartStr (jsNumToString n) 3 '0').length = 3 := by
  have hlen : (jsNumToString n).length ≤ 3 := by
    by_cases h0 : n = 0
    · subst h0; decide
    · have : jsNumToString n = String.mk (toDecAux (n + 1) n) := by simp [jsNumToString, h0]
      rw [this]
      exact toDecAux_length_le (n + 1) n 3 (by omega) (by omega)
  have := padStartStr_length (jsNumToString n) 3 '0'
  omega

theorem padStart_jsNum_length_ge (n : Nat) (h : 1000 ≤ n) :
    4 ≤ (padStartStr (jsNumToString n) 3 '0').length := by
  have h0 : n ≠ 0 := by omega
  have hjs : jsNumToString n = String.mk (toDecAux (n + 1) n) := by simp [jsNumToString, h0]
  have hlen : 4 ≤ (jsNumToString n).length := by
    rw [hjs]
    have := toDecAux_length_ge (n + 1) n 3 (by omega) (by omega)
    simpa [String.length] using this
  have := padStartStr_length (jsNumToString n) 3 '0'
  omega

/-! ## Structural lemmas about the derived file name -/

theorem joinWith_cons_cons (sep a b : String) (t : List String) :
    joinWith sep (a :: b :: t) = a ++ sep ++ joinWith sep (b :: t) := rfl

/-- Every file name the deriver builds opens with the padded 1-based index
followed by the `-` separator, in both the parsed and the fallback branch. -/
theorem outFileName_opens_with_index (parseURL : String → Option URLRec) (url : String)
    (index : Nat) :
    ∃ rest, outFileName parseURL url index
      = padStartStr (jsNumToString (index + 1)) 3 '0' ++ "-" ++ rest := by
  unfold outFileName
  cases hp : parseURL url with
  | none =>
    exact ⟨String.mk ((slugifyAll url.data).take 50) ++ ".mp4", by
      simp only [String.append_assoc]⟩
  | some parsed =>
    by_cases hps : pathSlugOf parsed = ""
    · refine ⟨hostPartOf parsed ++ ".mp4", ?_⟩
      simp only [hps, if_pos rfl, List.append_nil, joinWith, String.append_assoc]
    · refine ⟨joinWith "-" [hostPartOf parsed, pathSlugOf parsed] ++ ".mp4", ?_⟩
      simp only [if_neg hps, List.cons_append, List.nil_append, joinWith_cons_cons,
        String.append_assoc]

/-- Every derived file name ends in `.mp4`. -/
theorem outFileName_closes_with_mp4 (parseURL : String → Option URLRec) (url : String)
    (index : Nat) :
    ∃ stem, outFileName parseURL url index = stem ++ ".mp4" := by
  unfold outFileName
  cases hp : parseURL url with
  | none =>
    exact ⟨padStartStr (jsNumToString (index + 1)) 3 '0' ++ "-"
      ++ String.mk ((slugifyAll url.data).take 50), rfl⟩
  | some parsed => exact ⟨_, rfl⟩

/-- `path.join` keeps a `.mp4` suffix of its file-name argument. -/
theorem pathJoin_closes_with_mp4 (dir stem : String) :
    ∃ stem2, pathJoin dir (stem ++ ".mp4") = stem2 ++ ".mp4" := by
  unfold pathJoin
  by_cases h0 : dir = ""
  · exact ⟨stem, by simp [h0]⟩
  · by_cases h1 : dir.data.getLast? = some '/'
    · exact ⟨dir ++ stem, by simp [h0, h1, String.append_assoc]⟩
    · exact ⟨dir ++ "/" ++ stem, by simp [h0, h1, String.append_assoc]⟩

/-- The fallback branch of `generateOutputPath`, spelled out: an unparseable
URL yields `outputDir/<pad3(index+1)>-<sanitized 50-char slug>.mp4`. -/
theorem generateOutputPath_fallback (parseURL : String → Option URLRec) (url : String)
    (index : Nat) (outputDir : String) (h : parseURL url = none) :
    generateOutputPath parseURL url index outputDir
      = pathJoin outputDir
          (padStartStr (jsNumToString (index + 1)) 3 '0' ++ "-"
            ++ String.mk ((slugifyAll url.data).take 50) ++ ".mp4") := by
  unfold generateOutputPath outFileName
  rw [h]

/-! ## Lemmas about the sequential runner -/

theorem runSeqAux_length (parseURL : String → Option URLRec) (outputDir : String)
    (recordFn : JobContext σ → JobOutcome) (shared : σ) (total : Nat) :
    ∀ (urls : List String) (i : Nat),
      (runSeqAux parseURL outputDir recordFn shared total urls i).length = urls.length := by
  intro urls
  induction urls with
  | nil => intro i; rfl
  | cons url rest ih => intro i; simp [runSeqAux, ih]

theorem runSeqAux_getD_url (parseURL : String → Option URLRec) (outputDir : String)
    (recordFn : JobContext σ → JobOutcome) (shared : σ) (total : Nat) (d : BatchEntry) :
    ∀ (urls : List String) (i k : Nat), k < urls.length →
      ((runSeqAux parseURL outputDir recordFn shared total urls i).getD k d).url
        = urls.getD k "" := by
  intro urls
  induction urls with
  | nil => intro i k hk; simp at hk
  | cons url rest ih =>
    intro i k hk
    cases k with
    | zero => rfl
    | succ k =>
      have hk' : k < rest.length := by simpa using hk
      simpa [runSeqAux, List.getD_cons_succ] using ih (i + 1) k hk'

theorem runSequential_length (parseURL : String → Option URLRec) (urls : List String)
    (outputDir : String) (recordFn : JobContext σ → JobOutcome) (sharedArgs : σ) :
    (runSequential parseURL urls outputDir recordFn sharedArgs).length = urls.length :=
  runSeqAux_length parseURL outputDir recordFn sharedArgs urls.length urls 0

/-- A rejection thrown by the recording capability on the very first job
propagates out of `runSequential`: nothing is caught. -/
theorem runSequentialE_aborts (parseURL : String → Option URLRec) (url : String)
    (rest : List String) (outputDir : String) (sharedArgs : σ) (e : ε)
    (recordFn : JobContext σ → Except ε JobOutcome)
    (h : recordFn (mkSeqCtx sharedArgs url
          (generateOutputPath parseURL url 0 outputDir) 0 (url :: rest).length)
        = Except.error e) :
    runSequentialE parseURL (url :: rest) outputDir recordFn sharedArgs
      = Except.error e := by
  simp only [runSequentialE, runSeqAuxE]
  rw [h]

/-! ## List helpers for the pool proofs -/

theorem getD_set_self (l : List α) (i : Nat) (a d : α) (h : i < l.length) :
    (l.set i a).getD i d = a := by
  rw [List.getD_eq_getElem?_getD, List.getElem?_set]
  simp [h]

theorem getD_set_ne (l : List α) {i j : Nat} (a d : α) (h : i ≠ j) :
    (l.set i a).getD j d = l.getD j d := by
  rw [List.getD_eq_getElem?_getD, List.getElem?_set, if_neg h, ← List.getD_eq_getElem?_getD]

theorem getD_replicate (n : Nat) (a d : α) (j : Nat) :
    (List.replicate n a).getD j d = if j < n then a else d := by
  rw [List.getD_eq_getElem?_getD, List.getElem?_replicate]
  by_cases h : j < n <;> simp [h]

theorem getD_of_getElem?_some {l : List α} {w : Nat} {a : α} (h : l[w]? = some a) (d : α) :
    l.getD w d = a ∧ w < l.length := by
  obtain ⟨hlt, _⟩ := List.getElem?_eq_some_iff.mp h
  refine ⟨?_, hlt⟩
  rw [List.getD_eq_getElem?_getD, h]
  rfl

theorem buildQueue_length (urls : List String) : (buildQueue urls).length = urls.length := by
  simp [buildQueue, List.enum_length]

theorem buildQueue_getElem? (urls : List String) (j : Nat) (h : j < urls.length) :
    (buildQueue urls)[j]? = some { url := urls.getD j "", index := j } := by
  rw [buildQueue, List.getElem?_map, List.getElem?_enum, List.getElem?_eq_getElem h]
  rw [List.getD_eq_getElem?_getD, List.getElem?_eq_getElem h]
  rfl

theorem count_claimsOf_cons (st : WStatus) (ws : List WStatus) (j : Nat) :
    List.count j (claimsOf (st :: ws)) = claimCnt st j + List.count j (claimsOf ws) := by
  cases st with
  | idle => simp [claimsOf, claimCnt]
  | done => simp [claimsOf, claimCnt]
  | running k =>
    simp only [claimsOf, claimCnt, List.count_cons, beq_iff_eq]
    by_cases hkj : k = j
    · simp [hkj]
      omega
    · simp [hkj]

theorem count_claimsOf_set (j : Nat) (x : WStatus) :
    ∀ (ws : List WStatus) (w : Nat), w < ws.length →
      List.count j (claimsOf (ws.set w x)) + claimCnt (ws.getD w WStatus.done) j
        = List.count j (claimsOf ws) + claimCnt x j := by
  intro ws
  induction ws with
  | nil => intro w hw; simp at hw
  | cons st rest ih =>
    intro w hw
    cases w with
    | zero =>
      simp only [List.set_cons_zero, List.getD_cons_zero, count_claimsOf_cons]
      omega
    | succ w =>
      have hw' : w < rest.length := by simpa using hw
      simp only [List.set_cons_succ, List.getD_cons_succ, count_claimsOf_cons]
      have := ih w hw'
      omega

theorem mem_claimsOf_of_running {j : Nat} :
    ∀ {ws : List WStatus}, WStatus.running j ∈ ws → j ∈ claimsOf ws := by
  intro ws
  induction ws with
  | nil => intro h; simp at h
  | cons st rest ih =>
    intro h
    rcases List.mem_cons.mp h with heq | hmem
    · rw [← heq]; simp [claimsOf]
    · cases st <;> simp [claimsOf, ih hmem]

theorem count_claims_pos {ws : List WStatus} {w j : Nat}
    (h : ws[w]? = some (WStatus.running j)) : 1 ≤ List.count j (claimsOf ws) :=
  List.count_pos_iff.mpr (mem_claimsOf_of_running (List.getElem?_mem h))

theorem claimsOf_allDone : ∀ (ws : List WStatus), (∀ st ∈ ws, st = WStatus.done) →
    claimsOf ws = [] := by
  intro ws
  induction ws with
  | nil => intro _; rfl
  | cons st rest ih =>
    intro h
    have hst : st = WStatus.done := h st (List.mem_cons_self st rest)
    subst hst
    exact ih fun st hm => h st (List.mem_cons_of_mem _ hm)

theorem claimsOf_replicate_idle (k : Nat) : claimsOf (List.replicate k WStatus.idle) = [] := by
  induction k with
  | zero => rfl
  | succ k ih => simpa [List.replicate_succ, claimsOf] using ih

theorem poolInv_init (env : PoolEnv σ) (concurrency : Int) :
    PoolInv env (numWorkers concurrency env.urls.length) (initPool env concurrency) := by
  constructor
  · exact List.length_replicate _ _
  · exact List.length_replicate _ _
  · exact List.length_replicate _ _
  · exact Nat.zero_le _
  · intro j
    rw [show (initPool env concurrency).counts = List.replicate env.urls.length 0 from rfl,
      show (initPool env concurrency).slots
        = List.replicate env.urls.length (none : Option BatchEntry) from rfl,
      getD_replicate, getD_replicate]
    by_cases h : j < env.urls.length <;> simp [h]
  · intro j hj
    simp [initPool] at hj
  · intro j _
    rw [show (initPool env concurrency).workers
      = List.replicate (numWorkers concurrency env.urls.length) WStatus.idle from rfl,
      claimsOf_replicate_idle]
    rfl
  · intro j _
    rw [show (initPool env concurrency).slots
      = List.replicate env.urls.length (none : Option BatchEntry) from rfl, getD_replicate]
    by_cases h : j < env.urls.length <;> simp [h]
  · intro hmem
    rw [show (initPool env concurrency).workers
      = List.replicate (numWorkers concurrency env.urls.length) WStatus.idle from rfl] at hmem
    have := List.eq_of_mem_replicate hmem
    simp at this
  · intro j e he
    rw [show (initPool env concurrency).slots
      = List.replicate env.urls.length (none : Option BatchEntry) from rfl, getD_replicate] at he
    by_cases h : j < env.urls.length <;> simp [h] at he
  · intro p hp
    simp [initPool] at hp

theorem claimCnt_idle (j : Nat) : claimCnt WStatus.idle j = 0 := rfl

theorem claimCnt_done (j : Nat) : claimCnt WStatus.done j = 0 := rfl

theorem claimCnt_running (k j : Nat) :
    claimCnt (WStatus.running k) j = if k = j then 1 else 0 := rfl

/-- Every step of the pool preserves the invariant. -/
theorem poolInv_step (env : PoolEnv σ) (W : Nat) (s : PoolState σ) (w : Nat) (o : JobOutcome)
    (inv : PoolInv env W s) : PoolInv env W (poolStep env s w o) := by
  unfold poolStep
  split
  · -- the worker is at the top of its loop
    rename_i hws
    obtain ⟨hgetD, hwlt⟩ := getD_of_getElem?_some hws WStatus.done
    split
    · -- jobs remain: claim the cursor position and invoke recordFn
      rename_i hif
      have hnextN : s.next < env.urls.length := by rwa [buildQueue_length] at hif
      split
      · rename_i job hq
        rw [buildQueue_getElem? env.urls s.next hnextN] at hq
        injection hq with hq'
        subst hq'
        have hcnt : ∀ j', List.count j' (claimsOf (s.workers.set w (WStatus.running s.next)))
            = List.count j' (claimsOf s.workers) + claimCnt (WStatus.running s.next) j' := by
          intro j'
          have h1 := count_claimsOf_set j' (WStatus.running s.next) s.workers w hwlt
          rw [hgetD, claimCnt_idle] at h1
          omega
        refine
          { slots_len := inv.slots_len
            counts_len := inv.counts_len
            workers_len := by simpa using inv.workers_len
            next_le := hnextN
            counts_eq := inv.counts_eq
            entry_url := inv.entry_url
            claimed := ?_, unclaimed := ?_, unwritten := ?_, done_next := ?_, calls_ok := ?_ }
        · dsimp only
          intro j' hj'
          rcases Nat.lt_or_ge j' s.next with hlt | hge
          · rcases inv.claimed j' hlt with ⟨ha, hb⟩ | ⟨ha, hb⟩
            · left
              refine ⟨ha, ?_⟩
              rw [hcnt j', claimCnt_running, if_neg (by omega : s.next ≠ j')]
              omega
            · right
              refine ⟨ha, ?_⟩
              rw [hcnt j', claimCnt_running, if_neg (by omega : s.next ≠ j')]
              omega
          · have hj'eq : j' = s.next := by omega
            right
            rw [hj'eq]
            refine ⟨inv.unwritten s.next (Nat.le_refl _), ?_⟩
            rw [hcnt s.next, claimCnt_running, if_pos rfl, inv.unclaimed s.next (Nat.le_refl _)]
        · dsimp only
          intro j' hj'
          rw [hcnt j', claimCnt_running, if_neg (by omega : s.next ≠ j'),
            inv.unclaimed j' (by omega)]
        · dsimp only
          intro j' hj'
          exact inv.unwritten j' (by omega)
        · dsimp only
          intro hdone
          rcases List.mem_or_eq_of_mem_set hdone with hmem | heq
          · have := inv.done_next hmem
            omega
          · simp at heq
        · dsimp only
          intro p hp
          rcases List.mem_append.mp hp with h1 | h2
          · exact inv.calls_ok p h1
          · have hp2 := List.mem_singleton.mp h2
            subst hp2
            refine ⟨rfl, rfl, ?_⟩
            have := inv.workers_len
            omega
      · -- impossible arm (the cursor is in range), state unchanged
        exact inv
    · -- queue exhausted: the worker returns
      rename_i hif
      have hnext : s.next = env.urls.length := by
        have h1 := inv.next_le
        rw [buildQueue_length] at hif
        omega
      have hcnt : ∀ j', List.count j' (claimsOf (s.workers.set w WStatus.done))
          = List.count j' (claimsOf s.workers) := by
        intro j'
        have h1 := count_claimsOf_set j' WStatus.done s.workers w hwlt
        rw [hgetD, claimCnt_idle, claimCnt_done] at h1
        omega
      refine
        { slots_len := inv.slots_len
          counts_len := inv.counts_len
          workers_len := by simpa using inv.workers_len
          next_le := inv.next_le
          counts_eq := inv.counts_eq
          entry_url := inv.entry_url
          unwritten := inv.unwritten
          done_next := fun _ => hnext
          calls_ok := inv.calls_ok
          claimed := ?_, unclaimed := ?_ }
      · dsimp only
        intro j' hj'
        rcases inv.claimed j' hj' with ⟨ha, hb⟩ | ⟨ha, hb⟩
        · left; exact ⟨ha, by rw [hcnt j']; exact hb⟩
        · right; exact ⟨ha, by rw [hcnt j']; exact hb⟩
      · dsimp only
        intro j' hj'
        rw [hcnt j']
        exact inv.unclaimed j' hj'
  · -- the worker's awaited recordFn call settles: write the slot
    rename_i j hws
    obtain ⟨hgetD, hwlt⟩ := getD_of_getElem?_some hws WStatus.done
    have hcpos := count_claims_pos hws
    have hjn : j < s.next := by
      by_contra hc
      push_neg at hc
      have := inv.unclaimed j hc
      omega
    have hjN : j < env.urls.length := by
      have := inv.next_le
      omega
    split
    · rename_i job hq
      rw [buildQueue_getElem? env.urls j hjN] at hq
      injection hq with hq'
      subst hq'
      obtain ⟨hslotj, hcount1⟩ :
          s.slots.getD j none = none ∧ List.count j (claimsOf s.workers) = 1 := by
        rcases inv.claimed j hjn with ⟨ha, hb⟩ | h
        · omega
        · exact h
      have hcnt0 : s.counts.getD j 0 = 0 := by
        rw [inv.counts_eq j, hslotj]
        rfl
      have hcnt : ∀ j', List.count j' (claimsOf (s.workers.set w WStatus.idle))
          + claimCnt (WStatus.running j) j' = List.count j' (claimsOf s.workers) := by
        intro j'
        have h1 := count_claimsOf_set j' WStatus.idle s.workers w hwlt
        rw [hgetD, claimCnt_idle] at h1
        omega
      have hjcounts : j < s.counts.length := by rw [inv.counts_len]; exact hjN
      have hjslots : j < s.slots.length := by rw [inv.slots_len]; exact hjN
      refine
        { slots_len := by simpa using inv.slots_len
          counts_len := by simpa using inv.counts_len
          workers_len := by simpa using inv.workers_len
          next_le := inv.next_le
          counts_eq := ?_, claimed := ?_, unclaimed := ?_, unwritten := ?_,
          done_next := ?_, entry_url := ?_, calls_ok := inv.calls_ok }
      · dsimp only
        intro j'
        by_cases hjj : j = j'
        · subst hjj
          rw [getD_set_self _ _ _ _ hjcounts, getD_set_self _ _ _ _ hjslots, hcnt0]
          rfl
        · rw [getD_set_ne _ _ _ hjj, getD_set_ne _ _ _ hjj]
          exact inv.counts_eq j'
      · dsimp only
        intro j' hj'
        by_cases hjj : j = j'
        · subst hjj
          left
          refine ⟨by rw [getD_set_self _ _ _ _ hjslots]; rfl, ?_⟩
          have h1 := hcnt j
          rw [claimCnt_running, if_pos rfl] at h1
          omega
        · rcases inv.claimed j' hj' with ⟨ha, hb⟩ | ⟨ha, hb⟩
          · left
            refine ⟨by rw [getD_set_ne _ _ _ hjj]; exact ha, ?_⟩
            have h1 := hcnt j'
            rw [claimCnt_running, if_neg hjj] at h1
            omega
          · right
            refine ⟨by rw [getD_set_ne _ _ _ hjj]; exact ha, ?_⟩
            have h1 := hcnt j'
            rw [claimCnt_running, if_neg hjj] at h1
            omega
      · dsimp only
        intro j' hj'
        have hjj : j ≠ j' := by omega
        have h1 := hcnt j'
        rw [claimCnt_running, if_neg hjj] at h1
        have := inv.unclaimed j' hj'
        omega
      · dsimp only
        intro j' hj'
        have hjj : j ≠ j' := by omega
        rw [getD_set_ne _ _ _ hjj]
        exact inv.unwritten j' hj'
      · dsimp only
        intro hdone
        rcases List.mem_or_eq_of_mem_set hdone with hmem | heq
        · exact inv.done_next hmem
        · simp at heq
      · dsimp only
        intro j' e he
        by_cases hjj : j = j'
        · subst hjj
          rw [getD_set_self _ _ _ _ hjslots] at he
          have he' : e =
              { url := env.urls.getD j ""
                outputPath := generateOutputPath env.parseURL (env.urls.getD j "") j
                  env.outputDir
                success := o.success
                error := o.error } := by
            injection he with he''
            exact he''.symm
          rw [he']
          exact ⟨rfl, rfl⟩
        · rw [getD_set_ne _ _ _ hjj] at he
          exact inv.entry_url j' e he
    · -- impossible arm (the claimed position is in range), state unchanged
      exact inv
  · -- a returned worker has no step
    exact inv
  · -- an id that names no worker has no step
    exact inv

/-- The invariant holds after any schedule. -/
theorem poolInv_runPool (env : PoolEnv σ) (W : Nat) (sched : List (Nat × JobOutcome)) :
    ∀ s : PoolState σ, PoolInv env W s → PoolInv env W (runPool env s sched) := by
  induction sched with
  | nil => intro s inv; exact inv
  | cons p rest ih => intro s inv; exact ih _ (poolInv_step env W s p.1 p.2 inv)

/-- In a state where every worker has returned (and at least one worker was
launched), every slot of the result array has been written exactly once, with
its job's url and derived output path. -/
theorem poolInv_filled (env : PoolEnv σ) (W : Nat) (s : PoolState σ) (inv : PoolInv env W s)
    (hW : 1 ≤ W) (hdone : allDone s) :
    ∀ j, j < env.urls.length →
      s.counts.getD j 0 = 1 ∧
      ∃ e, s.slots.getD j none = some e ∧ e.url = env.urls.getD j ""
        ∧ e.outputPath = generateOutputPath env.parseURL (env.urls.getD j "") j env.outputDir := by
  have hdmem : WStatus.done ∈ s.workers := by
    have hlen : 0 < s.workers.length := by rw [inv.workers_len]; omega
    obtain ⟨st, hst⟩ := List.exists_mem_of_ne_nil s.workers (List.ne_nil_of_length_pos hlen)
    have h2 := hdone st hst
    rwa [h2] at hst
  have hnext : s.next = env.urls.length := inv.done_next hdmem
  have hclaims : claimsOf s.workers = [] := claimsOf_allDone s.workers hdone
  intro j hj
  have hcnt0 : List.count j (claimsOf s.workers) = 0 := by
    rw [hclaims]
    rfl
  rcases inv.claimed j (by omega) with ⟨hs, hc⟩ | ⟨hs, hc⟩
  · obtain ⟨e, he⟩ := Option.isSome_iff_exists.mp hs
    obtain ⟨hu, hp⟩ := inv.entry_url j e he
    refine ⟨?_, e, he, hu, hp⟩
    rw [inv.counts_eq j, he]
    rfl
  · omega

/-! ## Remaining helper lemmas -/

/-- With no workers, no schedule item has any effect. -/
theorem poolStep_no_workers (env : PoolEnv σ) (s : PoolState σ) (w : Nat) (o : JobOutcome)
    (h : s.workers = []) : poolStep env s w o = s := by
  unfold poolStep
  rw [h]
  rfl

theorem runPool_no_workers (env : PoolEnv σ) (s : PoolState σ) (h : s.workers = []) :
    ∀ sched : List (Nat × JobOutcome), runPool env s sched = s := by
  intro sched
  induction sched with
  | nil => rfl
  | cons p rest ih =>
    show runPool env (poolStep env s p.1 p.2) rest = s
    rw [poolStep_no_workers env s p.1 p.2 h]
    exact ih

theorem summaryLoop_aux :
    ∀ (results : List BatchEntry) (lines : List String) (sc fc : Nat),
      (results.foldl summaryStep (lines, sc, fc)).1
          = lines ++ (results.map fun r => [statusLine r, detailLine r]).flatten
        ∧ (results.foldl summaryStep (lines, sc, fc)).2.1
            + (results.foldl summaryStep (lines, sc, fc)).2.2
          = sc + fc + results.length := by
  intro results
  induction results with
  | nil => intro lines sc fc; simp
  | cons r rest ih =>
    intro lines sc fc
    rw [List.foldl_cons]
    have hstep : summaryStep (lines, sc, fc) r
        = (lines ++ [statusLine r, detailLine r],
           if r.success then sc + 1 else sc,
           if r.success then fc else fc + 1) := rfl
    rw [hstep]
    obtain ⟨h1, h2⟩ := ih (lines ++ [statusLine r, detailLine r])
      (if r.success then sc + 1 else sc) (if r.success then fc else fc + 1)
    constructor
    · rw [h1]
      simp [List.append_assoc]
    · rw [h2]
      by_cases hs : r.success
      · simp [hs, List.length_cons]
        omega
      · simp [hs, List.length_cons]
        omega

/-- Any string of at most three decimal digits decodes below 1000. -/
theorem decodeDec_three_digits_lt (a b c : Char)
    (ha : 48 ≤ a.toNat ∧ a.toNat ≤ 57) (hb : 48 ≤ b.toNat ∧ b.toNat ≤ 57)
    (hc : 48 ≤ c.toNat ∧ c.toNat ≤ 57) : decodeDec [a, b, c] ≤ 999 := by
  show 10 * (10 * (10 * 0 + (a.toNat - 48)) + (b.toNat - 48)) + (c.toNat - 48) ≤ 999
  omega

theorem one_le_numWorkers {concurrency : Int} {n : Nat} (h1 : 1 ≤ concurrency) (hn : 1 ≤ n) :
    1 ≤ numWorkers concurrency n := by
  unfold numWorkers
  omega

/-! ## The claims -/

/-- Claim C1: for every non-empty list of URL strings, `runSequential` and
`runParallel` (at any positive concurrency, once its pool has completed)
return a result array whose length equals the input list's length and whose
`i`-th entry's `url` field equals the `i`-th input URL, regardless of
execution mode or completion order (the schedule is arbitrary). -/
theorem claim_C1_url_correspondence (env : PoolEnv σ) (recordFn : JobContext σ → JobOutcome)
    (hne : env.urls ≠ []) :
    ((runSequential env.parseURL env.urls env.outputDir recordFn env.shared).length
        = env.urls.length
      ∧ ∀ i, i < env.urls.length →
          ((runSequential env.parseURL env.urls env.outputDir recordFn env.shared).getD i
            { url := "", outputPath := "", success := false, error := none }).url
            = env.urls.getD i "")
    ∧ ∀ (concurrency : Int) (sched : List (Nat × JobOutcome)),
        1 ≤ concurrency →
        allDone (runPool env (initPool env concurrency) sched) →
        (runPool env (initPool env concurrency) sched).slots.length = env.urls.length
          ∧ ∀ i, i < env.urls.length →
              ∃ e, (runPool env (initPool env concurrency) sched).slots.getD i none = some e
                ∧ e.url = env.urls.getD i "" := by
  constructor
  · exact ⟨runSequential_length env.parseURL env.urls env.outputDir recordFn env.shared,
      fun i hi => runSeqAux_getD_url env.parseURL env.outputDir recordFn env.shared
        env.urls.length _ env.urls 0 i hi⟩
  · intro concurrency sched hc hdone
    have hn : 1 ≤ env.urls.length := List.length_pos.mpr hne
    have inv := poolInv_runPool env (numWorkers concurrency env.urls.length) sched
      (initPool env concurrency) (poolInv_init env concurrency)
    have filled := poolInv_filled env (numWorkers concurrency env.urls.length) _ inv
      (one_le_numWorkers hc hn) hdone
    refine ⟨inv.slots_len, fun i hi => ?_⟩
    obtain ⟨-, e, he, hu, -⟩ := filled i hi
    exact ⟨e, he, hu⟩

/-- Claim C1 witness at a concrete two-URL batch, concurrency 2, and a
schedule that interleaves the two workers. -/
theorem claim_C1_url_correspondence_witness :
    (runSequential envW.parseURL envW.urls envW.outputDir recordOk envW.shared).length = 2
    ∧ ∃ e, (runPool envW (initPool envW 2) schedW).slots.getD 0 none = some e
        ∧ e.url = "https://a.example" := by
  have h := claim_C1_url_correspondence envW recordOk (by decide)
  refine ⟨h.1.1, ?_⟩
  have h2 := (h.2 2 schedW (by decide) (by decide)).2 0 (by decide)
  exact h2

/-- Claim C2: with any concurrency between 1 and the batch size, once the
pool has completed (all workers returned), every result index below the
batch size has been written exactly once — the instrumented write count of
every slot is 1 and every slot is filled: no index skipped, none written
twice. -/
theorem claim_C2_queue_exhausted_exactly_once (env : PoolEnv σ) (concurrency : Int)
    (sched : List (Nat × JobOutcome)) (h1 : 1 ≤ concurrency)
    (_h2 : concurrency ≤ (env.urls.length : Int))
    (hdone : allDone (runPool env (initPool env concurrency) sched)) :
    ∀ j, j < env.urls.length →
      (runPool env (initPool env concurrency) sched).counts.getD j 0 = 1
        ∧ ((runPool env (initPool env concurrency) sched).slots.getD j none).isSome := by
  intro j hj
  have hn : 1 ≤ env.urls.length := by omega
  have inv := poolInv_runPool env (numWorkers concurrency env.urls.length) sched
    (initPool env concurrency) (poolInv_init env concurrency)
  have filled := poolInv_filled env (numWorkers concurrency env.urls.length) _ inv
    (one_le_numWorkers h1 hn) hdone
  obtain ⟨hc, e, he, -, -⟩ := filled j hj
  refine ⟨hc, ?_⟩
  rw [he]
  rfl

/-- Claim C2 witness: in the concrete completed run, both slots have write
count 1 and are filled. -/
theorem claim_C2_queue_exhausted_exactly_once_witness :
    (runPool envW (initPool envW 2) schedW).counts.getD 0 0 = 1
    ∧ ((runPool envW (initPool envW 2) schedW).slots.getD 1 none).isSome := by
  have h0 := claim_C2_queue_exhausted_exactly_once envW 2 schedW (by decide) (by decide)
    (by decide) 0 (by decide)
  have h1 := claim_C2_queue_exhausted_exactly_once envW 2 schedW (by decide) (by decide)
    (by decide) 1 (by decide)
  exact ⟨h0.1, h1.2⟩

/-- Claim C10: calling `runParallel` with non-positive concurrency on a
non-empty URL list launches no workers; the call returns (any schedule is a
stutter) with the pre-sized result array of length `urls.length` in which no
slot was ever written. -/
theorem claim_C10_empty_pool (env : PoolEnv σ) (concurrency : Int)
    (sched : List (Nat × JobOutcome)) (hc : concurrency ≤ 0) (_hne : env.urls ≠ []) :
    (initPool env concurrency).workers = []
    ∧ runPool env (initPool env concurrency) sched = initPool env concurrency
    ∧ (initPool env concurrency).slots.length = env.urls.length
    ∧ ∀ j, (initPool env concurrency).slots.getD j none = none := by
  have hW : numWorkers concurrency env.urls.length = 0 := by
    unfold numWorkers
    omega
  have hworkers : (initPool env concurrency).workers = [] := by
    show List.replicate (numWorkers concurrency env.urls.length) WStatus.idle = []
    rw [hW]
    rfl
  refine ⟨hworkers, runPool_no_workers env _ hworkers sched, List.length_replicate _ _, ?_⟩
  intro j
  show (List.replicate env.urls.length (none : Option BatchEntry)).getD j none = none
  rw [getD_replicate]
  by_cases h : j < env.urls.length
  · rw [if_pos h]
  · rw [if_neg h]

/-- Claim C10 witness: concurrency 0 over the concrete two-URL batch. -/
theorem claim_C10_empty_pool_witness :
    (initPool envW 0).workers = []
    ∧ runPool envW (initPool envW 0) schedW = initPool envW 0
    ∧ (initPool envW 0).slots.getD 0 none = none :=
  have h := claim_C10_empty_pool envW 0 schedW (by decide) (by decide)
  ⟨h.1, h.2.1, h.2.2.2 0⟩

/-- Claim C3: the claim says an exception raised by the injected recording
function is caught at the job-invocation boundary and converted into a
failure JobResult.  The source has no `try`/`catch` around
`await recordFn(...)` in either `runSequential` (lines 107-114) or the
parallel `worker` (lines 158-167), so a rejection propagates and aborts the
whole call — this theorem evaluates the embedded code at the failing input:
a recording capability that throws on its first job makes `runSequential`
reject with that very exception instead of returning a result array.  (The
spec itself mandates normalization in sections 7 and 9, so the code, not the
claim, is at fault.) -/
theorem claim_C3_exception_aborts_batch :
    runSequentialE parseNone ["https://a.example", "https://b.example"] "/out"
      (fun _ => (Except.error "record exploded" : Except String JobOutcome)) ()
      = Except.error "record exploded" :=
  runSequentialE_aborts parseNone "https://a.example" ["https://b.example"] "/out" ()
    "record exploded" _ rfl

/-- Claim C4: `generateOutputPath` is total — in this embedding every
operation it performs is a total function, so for every parser behaviour,
URL string (malformed, empty, or arbitrarily long), index and output
directory it returns a path string (always ending in `.mp4`); and whenever
the URL parser rejects the input, the result is the fallback
`outputDir/<pad3(index+1)>-<slug>.mp4` built from the raw string with every
non-alphanumeric character replaced by `-` and truncated to 50 characters. -/
theorem claim_C4_derive_total_fallback (parseURL : String → Option URLRec) (url : String)
    (index : Nat) (outputDir : String) :
    (∃ stem, generateOutputPath parseURL url index outputDir = stem ++ ".mp4")
    ∧ (parseURL url = none →
        generateOutputPath parseURL url index outputDir
          = pathJoin outputDir
              (padStartStr (jsNumToString (index + 1)) 3 '0' ++ "-"
                ++ String.mk ((slugifyAll url.data).take 50) ++ ".mp4")
          ∧ ((slugifyAll url.data).take 50).length ≤ 50) := by
  constructor
  · obtain ⟨stem, hstem⟩ := outFileName_closes_with_mp4 parseURL url index
    obtain ⟨stem2, h2⟩ := pathJoin_closes_with_mp4 outputDir stem
    refine ⟨stem2, ?_⟩
    unfold generateOutputPath
    rw [hstem]
    exact h2
  · intro h
    exact ⟨generateOutputPath_fallback parseURL url index outputDir h,
      List.length_take_le 50 (slugifyAll url.data)⟩

/-- Claim C4 witness: the empty string (which no URL parser accepts) at
index 0 with an empty output directory. -/
theorem claim_C4_derive_total_fallback_witness :
    generateOutputPath parseNone "" 0 ""
      = pathJoin ""
          (padStartStr (jsNumToString 1) 3 '0' ++ "-"
            ++ String.mk ((slugifyAll "".data).take 50) ++ ".mp4")
    ∧ ((slugifyAll "".data).take 50).length ≤ 50 :=
  (claim_C4_derive_total_fallback parseNone "" 0 "").2 rfl

/-- Claim C5 counterexample: at index 999 the derived file name opens with
the four-digit run `1000` (JavaScript `padStart(3, '0')` never truncates),
so it does not open with any exactly-3-digit decimal rendering of
`index + 1` — no three decimal digits can even denote 1000. -/
theorem claim_C5_counterexample :
    (((outFileName parseNone "u" 999).data.takeWhile
        fun c => decide (48 ≤ c.toNat ∧ c.toNat ≤ 57)).length = 4)
    ∧ ¬ ∃ s : String, s.data.length = 3
        ∧ (∀ c ∈ s.data, 48 ≤ c.toNat ∧ c.toNat ≤ 57)
        ∧ decodeDec s.data = 999 + 1
        ∧ ∃ rest, outFileName parseNone "u" 999 = s ++ rest := by
  constructor
  · decide
  · rintro ⟨s, hlen, hdig, hdec, -⟩
    obtain ⟨a, b, c, habc⟩ := List.length_eq_three.mp hlen
    rw [habc] at hdec hdig
    have hb := decodeDec_three_digits_lt a b c (hdig a (by simp)) (hdig b (by simp))
      (hdig c (by simp))
    omega

/-- Claim C5 (amended): the file name produced by the path deriver always
begins with the decimal rendering of `index + 1` zero-padded to *at least*
3 digits — exactly 3 whenever `index + 1 ≤ 999`, and 4 or more digits
beyond that, since `padStart` never truncates.  Consequently the prefix
remains injective across all indices: batches larger than 999 do *not*
lose uniqueness from the prefix alone. -/
theorem claim_C5_index_pad3 (parseURL : String → Option URLRec) (url : String)
    (index : Nat) :
    (∃ rest, outFileName parseURL url index
        = padStartStr (jsNumToString (index + 1)) 3 '0' ++ "-" ++ rest)
    ∧ (index + 1 < 1000 → (padStartStr (jsNumToString (index + 1)) 3 '0').length = 3)
    ∧ (1000 ≤ index + 1 → 4 ≤ (padStartStr (jsNumToString (index + 1)) 3 '0').length)
    ∧ ∀ index2 : Nat,
        padStartStr (jsNumToString (index + 1)) 3 '0'
          = padStartStr (jsNumToString (index2 + 1)) 3 '0' → index = index2 := by
  refine ⟨outFileName_opens_with_index parseURL url index,
    fun h => padStart_jsNum_length_eq _ h,
    fun h => padStart_jsNum_length_ge _ h, ?_⟩
  intro index2 heq
  have := padStart_jsNum_injective heq
  omega

/-- Claim C5 (amended) witness at index 0 and at index 999. -/
theorem claim_C5_index_pad3_witness :
    (∃ rest, outFileName parseNone "u" 0
        = padStartStr (jsNumToString 1) 3 '0' ++ "-" ++ rest)
    ∧ (padStartStr (jsNumToString 1) 3 '0').length = 3
    ∧ 4 ≤ (padStartStr (jsNumToString 1000) 3 '0').length :=
  ⟨(claim_C5_index_pad3 parseNone "u" 0).1,
    (claim_C5_index_pad3 parseNone "u" 0).2.1 (by omega),
    (claim_C5_index_pad3 parseNone "u" 999).2.2.1 (by omega)⟩

/-- Claim C6: the pool launches exactly `min(concurrency, urls.length)`
workers with 0-based ids, and every `recordFn` call a worker ever makes
carries resource hints that are a function of its worker id only
(`displayStartNumber = 99 + workerId*10`,
`sinkName = "recording_sink_" ++ workerId`), so calls made by two distinct
workers — concurrently active or not — never share a `sinkName` or a
`displayStartNumber`. -/
theorem claim_C6_worker_resource_hints (env : PoolEnv σ) (concurrency : Int)
    (sched : List (Nat × JobOutcome)) :
    (initPool env concurrency).workers.length
        = (min concurrency (env.urls.length : Int)).toNat
    ∧ ∀ p1 ∈ (runPool env (initPool env concurrency) sched).calls,
        p1.1 < (min concurrency (env.urls.length : Int)).toNat
        ∧ p1.2.displayStartNumber = some (99 + p1.1 * 10)
        ∧ p1.2.sinkName = some ("recording_sink_" ++ jsNumToString p1.1)
        ∧ ∀ p2 ∈ (runPool env (initPool env concurrency) sched).calls,
            p1.1 ≠ p2.1 →
              p1.2.displayStartNumber ≠ p2.2.displayStartNumber
              ∧ p1.2.sinkName ≠ p2.2.sinkName := by
  have inv := poolInv_runPool env (numWorkers concurrency env.urls.length) sched
    (initPool env concurrency) (poolInv_init env concurrency)
  refine ⟨List.length_replicate _ _, ?_⟩
  intro p1 h1
  obtain ⟨hd1, hs1, hw1⟩ := inv.calls_ok p1 h1
  refine ⟨hw1, hd1, hs1, ?_⟩
  intro p2 h2 hne
  obtain ⟨hd2, hs2, -⟩ := inv.calls_ok p2 h2
  constructor
  · rw [hd1, hd2]
    intro hc
    injection hc with hc'
    omega
  · rw [hs1, hs2]
    intro hc
    injection hc with hc'
    apply hne
    have hdata := congrArg String.data hc'
    rw [String.data_append, String.data_append] at hdata
    have hnum := List.append_cancel_left hdata
    have h3 := congrArg decodeDec hnum
    rw [decodeDec_jsNumToString, decodeDec_jsNumToString] at h3
    exact h3

/-- Claim C6 witness: in the concrete completed run, the two recorded calls
come from workers 0 and 1 and have distinct sink names. -/
theorem claim_C6_worker_resource_hints_witness :
    (initPool envW 2).workers.length = 2
    ∧ ((runPool envW (initPool envW 2) schedW).calls.getD 0 dummyCall).2.sinkName
        ≠ ((runPool envW (initPool envW 2) schedW).calls.getD 1 dummyCall).2.sinkName := by
  have h := claim_C6_worker_resource_hints envW 2 schedW
  refine ⟨h.1, ?_⟩
  have hm0 : (runPool envW (initPool envW 2) schedW).calls.getD 0 dummyCall
      ∈ (runPool envW (initPool envW 2) schedW).calls := by decide
  have hm1 : (runPool envW (initPool envW 2) schedW).calls.getD 1 dummyCall
      ∈ (runPool envW (initPool envW 2) schedW).calls := by decide
  exact ((h.2 _ hm0).2.2.2 _ hm1 (by decide)).2

/-- Claim C7: deriving the path for `https://www.Example.com/Foo/Bar/` at
index 0 into `/out` — given the WHATWG parse of that URL, in which the
hostname has been normalized to lower case — yields
`/out/001-example-com-Foo-Bar.mp4`: path-component case preserved, the
trailing slash stripped, and the leading `www.` stripped from the
hostname. -/
theorem claim_C7_scenario (parseURL : String → Option URLRec)
    (h : parseURL "https://www.Example.com/Foo/Bar/"
        = some { hostname := "www.example.com", pathname := "/Foo/Bar/" }) :
    generateOutputPath parseURL "https://www.Example.com/Foo/Bar/" 0 "/out"
      = "/out/001-example-com-Foo-Bar.mp4" := by
  unfold generateOutputPath outFileName
  rw [h]
  decide

/-- Claim C7 witness with a concrete parser. -/
theorem claim_C7_scenario_witness :
    generateOutputPath parseW "https://www.Example.com/Foo/Bar/" 0 "/out"
      = "/out/001-example-com-Foo-Bar.mp4" :=
  claim_C7_scenario parseW (by decide)

/-- Claim C8: `readUrlFile`, as a function of the file's existence and
contents, fails with the "file not found" error when the file is absent;
otherwise it trims the content's lines, keeps them in order, drops the ones
that are empty after trimming or start (after trimming) with `#`, fails
with the "no URLs found" error when that filtered list is empty and returns
it otherwise; on the spec's sample file the parsed list is
`["https://example.com/page", "not a url"]`. -/
theorem claim_C8_readUrlFile (filePath content : String) :
    readUrlFile filePath false content
        = Except.error ("URL file not found: " ++ filePath)
    ∧ (parseUrlLines content ≠ [] →
        readUrlFile filePath true content = Except.ok (parseUrlLines content))
    ∧ (parseUrlLines content = [] →
        readUrlFile filePath true content
          = Except.error ("No URLs found in file: " ++ filePath))
    ∧ parseUrlLines "# comment\n\nhttps://example.com/page\nnot a url"
        = ["https://example.com/page", "not a url"] := by
  refine ⟨rfl, ?_, ?_, by decide⟩
  · intro h
    have hlen : ¬(parseUrlLines content).length = 0 := fun hc =>
      h (List.eq_nil_of_length_eq_zero hc)
    simp [readUrlFile, hlen]
  · intro h
    simp [readUrlFile, h]

/-- Claim C8 witness: the sample file parses, and a comment-only file fails
with the "no URLs found" error. -/
theorem claim_C8_readUrlFile_witness :
    readUrlFile "urls.txt" true "# comment\n\nhttps://example.com/page\nnot a url"
        = Except.ok ["https://example.com/page", "not a url"]
    ∧ readUrlFile "urls.txt" true "# only comments\n\n"
        = Except.error ("No URLs found in file: " ++ "urls.txt") := by
  constructor
  · have h := (claim_C8_readUrlFile "urls.txt"
      "# comment\n\nhttps://example.com/page\nnot a url").2.1 (by decide)
    rw [h]
    exact congrArg Except.ok (by decide)
  · exact (claim_C8_readUrlFile "urls.txt" "# only comments\n\n").2.2.1 (by decide)

/-- Claim C9: for every result list, `printBatchSummary` counts each
element as exactly one of success or failure — the two counters sum to the
input length — and lists every job exactly once, in order, via its status
line tagged OK or FAIL; the totals line renders exactly those counters. -/
theorem claim_C9_summary_counts (results : List BatchEntry) :
    (summaryLoop results).2.1 + (summaryLoop results).2.2 = results.length
    ∧ (summaryLoop results).1 = (results.map fun r => [statusLine r, detailLine r]).flatten
    ∧ (∀ r ∈ results, statusLine r
        = "  [" ++ (if r.success then "OK" else "FAIL") ++ "] " ++ r.url)
    ∧ printBatchSummary results
        = [sep70, "Batch Recording Summary", sep70] ++ (summaryLoop results).1
          ++ [dash70,
            "Total: " ++ jsNumToString results.length ++ " | Success: "
              ++ jsNumToString (summaryLoop results).2.1 ++ " | Failed: "
              ++ jsNumToString (summaryLoop results).2.2] := by
  obtain ⟨h1, h2⟩ := summaryLoop_aux results [] 0 0
  exact ⟨by simpa using h2, by simpa using h1, fun r _ => rfl, rfl⟩

/-- Claim C9 witness on a concrete one-success-one-failure list. -/
theorem claim_C9_summary_counts_witness :
    (summaryLoop resultsW).2.1 + (summaryLoop resultsW).2.2 = 2
    ∧ statusLine (resultsW.getD 0 ⟨"", "", false, none⟩) = "  [OK] u1" := by
  have h := claim_C9_summary_counts resultsW
  refine ⟨h.1, ?_⟩
  have h2 := h.2.2.1 (resultsW.getD 0 ⟨"", "", false, none⟩) (by decide)
  rw [h2]
  decide

end Batch
